import Mathlib

/-!
Verification development for the process-management core (`kernel/proc.c`) of a
small RISC-V teaching operating system.  The C source is shallowly embedded:
process records become a Lean structure, the fixed process table becomes a
`List Proc` scanned in order exactly as the C `for` loops do, machine integers
become `Nat` with explicit masking where 32/64-bit wraparound matters, and the
spinlock discipline of `kill` is made observable by returning the list of
per-record locks still held at the point of return.
-/

/-- Modelled from the spec: the signal-number and handler-sentinel constants come
from the repository's header files (`param.h`/`proc.h`), which are not part of
the provided source tree; only `kernel/proc.c` is.  The spec fixes the signal
range 0-31, designates two non-maskable numbers (a kill and a stop equivalent)
plus a continue signal, and describes handler table entries as "default, ignore,
or a pointer"; the conventional numbering of this kernel family is used:
`SIG_DFL = 0`. -/
def SIG_DFL : Nat := 0

/-- Modelled from the spec (see `SIG_DFL`): the ignore-action handler sentinel. -/
def SIG_IGN : Nat := 1

/-- Modelled from the spec (see `SIG_DFL`): the non-maskable kill signal number. -/
def SIGKILL : Nat := 9

/-- Modelled from the spec (see `SIG_DFL`): the non-maskable stop signal number. -/
def SIGSTOP : Nat := 17

/-- Modelled from the spec (see `SIG_DFL`): the continue signal number. -/
def SIGCONT : Nat := 19

/-- Modelled from the spec: `NOFILE`, the size of the per-process open-file
table (`open_files[NOFILE]` in the spec's data model), from the missing
`param.h`. -/
def NOFILE : Nat := 16

/-- All 32 bits set: the value of the C expression `~(...)` on `uint`
operands, used when a negative `int` is converted to 32-bit unsigned. -/
def mask32 : Nat := 4294967295

/-- All 64 bits set, for the `uint64` arithmetic in `is_pending_and_not_masked`. -/
def mask64 : Nat := 18446744073709551615

/-- The process states of `enum procstate` in `proc.h` (named in `proc.c`'s
`procdump` table and state tests). -/
inductive ProcState where
  | UNUSED
  | USED
  | SLEEPING
  | RUNNABLE
  | RUNNING
  | ZOMBIE
deriving DecidableEq, Repr

/-- The saved user-mode register image (`struct trapframe`).  The fields the
code manipulates by name (`epc`, `sp`, `ra`, `a0`) are explicit; the remaining
saved registers, which are only ever copied wholesale, are abstracted as a
list. -/
structure TrapFrame where
  epc : Nat
  sp : Nat
  ra : Nat
  a0 : Nat
  regs : List Nat
deriving DecidableEq, Repr

instance : Inhabited TrapFrame := ⟨⟨0, 0, 0, 0, []⟩⟩

/-- One slot of the process table (`struct proc`).  Pointers to other records
become indices into the table (`parent`), the sleep channel becomes
`Option Nat` (`none` is the C null pointer, `some i` the address of record
`i` — the only channel values this file's operations ever pass), and the
handler table entries keep the C representation: a raw word compared against
the sentinels `SIG_DFL`/`SIG_IGN`/`SIGKILL`/`SIGSTOP`/`SIGCONT`, anything else
being a user-space pointer to a handler descriptor. -/
structure Proc where
  state : ProcState
  pid : Nat
  parent : Option Nat
  sz : Nat
  trapframe : Option TrapFrame
  pagetable : Bool
  name : String
  chan : Option Nat
  killed : Bool
  xstate : Int
  ofile : List Nat
  cwd : Nat
  signal_handlers : List Nat
  signals_mask : Nat
  pending_signals : Nat
  stopped : Bool
  signal_handling : Bool
  signals_mask_backup : Nat
  user_tf_backup : Nat
deriving DecidableEq, Repr

instance : Inhabited Proc :=
  ⟨⟨ProcState.UNUSED, 0, none, 0, none, false, "", none, false, 0,
    List.replicate NOFILE 0, 0, List.replicate 32 SIG_DFL, 0, 0,
    false, false, 0, 0⟩⟩

/-- Table lookup by index; out-of-range reads give the inhabited default
(an `UNUSED` slot), mirroring that the C loops never index past `NPROC`. -/
def pget : List Proc → Nat → Proc
  | [], _ => default
  | q :: _, 0 => q
  | _ :: rest, n + 1 => pget rest n

/-- In-place update of one table slot (the C idiom of writing through a
`struct proc *` into the global array). -/
def updateAt (i : Nat) (f : Proc → Proc) : List Proc → List Proc
  | [] => []
  | q :: rest =>
    match i with
    | 0 => f q :: rest
    | n + 1 => q :: updateAt n f rest

/-- Embedding of `sigprocmask` (proc.c): returns the previous mask and stores
`mask & ~(1 << SIGKILL | 1 << SIGSTOP)`; the `~` of the `int` bit expression,
converted to `uint` for the `&`, is `mask32` minus the two bits. -/
def sigprocmask (p : Proc) (mask : Nat) : Nat × Proc :=
  let m := mask % 2 ^ 32
  (p.signals_mask,
   { p with signals_mask := m &&& (mask32 ^^^ ((1 <<< SIGKILL) ||| (1 <<< SIGSTOP))) })

/-- Embedding of `is_pending_and_not_masked` (proc.c): `non_maskable` is the 64-bit value of
`~(1 << SIGKILL) & ~(1 << SIGSTOP)` (the sign-extended `int` complements), and
the test is `(pending & (1 << signum)) && !((mask & non_maskable) & (1 << signum))`. -/
def is_pending_and_not_masked (p : Proc) (signum : Nat) : Bool :=
  let non_maskable : Nat := (mask64 ^^^ (1 <<< SIGKILL)) &&& (mask64 ^^^ (1 <<< SIGSTOP))
  (p.pending_signals &&& (1 <<< signum) ≠ 0) &&
    ((p.signals_mask &&& non_maskable) &&& (1 <<< signum) = 0)

/-- Embedding of `sigcont_func` (proc.c): clear the stopped flag. -/
def sigcont_func (p : Proc) : Proc := { p with stopped := false }

/-- Embedding of `sigstop_func` (proc.c): set the stopped flag. -/
def sigstop_func (p : Proc) : Proc := { p with stopped := true }

/-- Embedding of `sigkill_func` (proc.c): set the killed flag and, if the process is
sleeping, make it runnable so it can observe the kill promptly. -/
def sigkill_func (p : Proc) : Proc :=
  let p := { p with killed := true }
  if p.state = ProcState.SLEEPING then { p with state := ProcState.RUNNABLE } else p

/-- Embedding of `turnoff_sigbit` (proc.c): clear pending bit `i`
(`pending_signals & ~(1 << i)`, the complement taken in 32 bits). -/
def turnoff_sigbit (p : Proc) (i : Nat) : Proc :=
  { p with pending_signals := p.pending_signals &&& (mask32 ^^^ (1 <<< i)) }

/-- The inner scan of `search_cont_signals` (proc.c):
`for i in 0..31: if pending-and-unmasked i and handlers[i] == SIGCONT,
apply the continue action, clear bit i, return 1`. -/
def search_cont_go (p : Proc) : List Nat → Bool × Proc
  | [] => (false, p)
  | i :: rest =>
    if is_pending_and_not_masked p i ∧ p.signal_handlers.getD i 0 = SIGCONT then
      (true, turnoff_sigbit (sigcont_func p) i)
    else
      search_cont_go p rest

/-- Embedding of `search_cont_signals` (proc.c): a pending unmasked `SIGCONT` (default
action), then a pending unmasked `SIGKILL`, then any pending unmasked signal
whose installed handler is the `SIGCONT` sentinel; the first hit is applied,
its pending bit cleared, and 1 returned. -/
def search_cont_signals (p : Proc) : Bool × Proc :=
  if is_pending_and_not_masked p SIGCONT then
    (true, turnoff_sigbit (sigcont_func p) SIGCONT)
  else if is_pending_and_not_masked p SIGKILL then
    (true, turnoff_sigbit (sigkill_func p) SIGKILL)
  else
    search_cont_go p (List.range 32)

/-- The kernel/user-boundary collaborators of the signal subsystem, as the
delivery loop consumes them: `copyin` reads of the user-space handler
descriptor (its entry address and handler-local mask), the `copyin` of the
saved trap frame on `sigret`, and the two link-time sizes
`sizeof(struct trapframe)` and `endcallsigret - callsigret`. -/
structure UserEnv where
  sa_handler_at : Nat → Nat
  sigmask_at : Nat → Nat
  tf_at : Nat → TrapFrame
  tf_size : Nat
  stub_size : Nat

/-- A `copyout` performed by the trampoline construction: the pre-handler trap
frame pushed onto the user stack, or the machine code of the return stub. -/
inductive UserWrite where
  | tfBackup (dst : Nat) (tf : TrapFrame)
  | retStub (dst : Nat)
deriving DecidableEq, Repr

/-- The 64-bit wraparound subtraction, for the `uint64` stack-pointer arithmetic. -/
def sub64 (a b : Nat) : Nat := (a % 2 ^ 64 + (2 ^ 64 - b % 2 ^ 64)) % 2 ^ 64

/-- Embedding of `usersignalhandler` (proc.c), the user-mode trampoline protocol: read the
handler entry and handler-local mask from the user descriptor, install the
handler mask remembering the old one, set the reentrancy guard, push the
current trap frame just below the user stack pointer, point `epc` at the
handler entry, reserve space below that for the `callsigret` return stub and
copy the stub there, and set `sp`/`ra` to the stub with the signal number in
`a0`.  The two `copyout`s are returned as the write log. -/
def usersignalhandler (env : UserEnv) (p : Proc) (signum : Nat) : Proc × List UserWrite :=
  let handler := p.signal_handlers.getD signum 0
  let dst := env.sa_handler_at handler
  let sigmask := env.sigmask_at handler
  let (backup_mask, p) := sigprocmask p sigmask
  let p := { p with signals_mask_backup := backup_mask }
  let p := { p with signal_handling := true }
  let tf := p.trapframe.getD default
  let sp_n := sub64 tf.sp env.tf_size
  let p := { p with user_tf_backup := sp_n }
  let w1 := UserWrite.tfBackup sp_n tf
  let tf := { tf with epc := dst }
  let sp_n := sub64 sp_n env.stub_size
  let tf := { tf with sp := sp_n }
  let w2 := UserWrite.retStub sp_n
  let tf := { tf with a0 := signum, ra := sp_n }
  ({ p with trapframe := some tf }, [w1, w2])

/-- The stop-wait loop of `signalhandler` (proc.c):
`while (p->stopped) { if (search_cont_signals()) break; yield(); }`.
Within a single delivery pass no other thread mutates the record, so a
`yield` returns with the record unchanged (the scheduler restores `RUNNING`);
the loop therefore exits at the first successful `search_cont_signals` and
spins forever otherwise, which the embedding renders as `none`. -/
def stopWait (p : Proc) : Option Proc :=
  if p.stopped then
    match search_cont_signals p with
    | (true, p') => some p'
    | (false, _) => none
  else
    some p

/-- The body of `signalhandler`'s `for i in 0..31` loop (proc.c).  Per signal
number: return if killed; run the stop-wait loop; if `i` is pending and
unmasked, return if the reentrancy guard is set, skip (`continue`) on the
`SIG_IGN` sentinel — NOTE: the `continue` bypasses the trailing
`turnoff_sigbit`, so an ignored signal's pending bit is not cleared — apply
the built-in action for `SIG_DFL` (stop/continue/kill by signal number, kill
as the default case) and for the explicit `SIGSTOP`/`SIGCONT`/`SIGKILL`
sentinels, dispatch any other value through the user trampoline, and finally
clear the pending bit. -/
def shGo (env : UserEnv) : List Nat → Proc → List UserWrite → Option (Proc × List UserWrite)
  | [], p, w => some (p, w)
  | i :: rest, p, w =>
    if p.killed then some (p, w)
    else
      match stopWait p with
      | none => none
      | some p =>
        if is_pending_and_not_masked p i then
          if p.signal_handling then some (p, w)
          else if p.signal_handlers.getD i 0 = SIG_IGN then
            shGo env rest p w
          else
            let (p, w') :=
              if p.signal_handlers.getD i 0 = SIG_DFL then
                if i = SIGSTOP then (sigstop_func p, [])
                else if i = SIGCONT then (sigcont_func p, [])
                else if i = SIGKILL then (sigkill_func p, [])
                else (sigkill_func p, [])
              else if p.signal_handlers.getD i 0 = SIGSTOP then (sigstop_func p, [])
              else if p.signal_handlers.getD i 0 = SIGCONT then (sigcont_func p, [])
              else if p.signal_handlers.getD i 0 = SIGKILL then (sigkill_func p, [])
              else usersignalhandler env p i
            shGo env rest (turnoff_sigbit p i) (w ++ w')
        else
          shGo env rest p w

/-- Embedding of `signalhandler` (proc.c), one delivery pass, invoked on each kernel-to-user
return: a no-op when the reentrancy guard `signal_handling` is already set,
otherwise the 0-31 loop of `shGo`.  `none` means the pass blocked forever in
the stop-wait loop; otherwise the resulting record and the log of user-memory
writes (non-empty exactly when a user handler was dispatched). -/
def signalhandler (env : UserEnv) (p : Proc) : Option (Proc × List UserWrite) :=
  if p.signal_handling then some (p, [])
  else shGo env (List.range 32) p []

/-- Embedding of `sigret` (proc.c), the return protocol run by the on-stack stub after a
user handler returns: `copyin` the saved trap frame from `user_tf_backup`
back over the live one, restore the saved mask, clear the saved-frame pointer
and the reentrancy guard. -/
def sigret (env : UserEnv) (p : Proc) : Proc :=
  { p with trapframe := some (env.tf_at p.user_tf_backup),
           signals_mask := p.signals_mask_backup,
           user_tf_backup := 0,
           signal_handling := false }

/-- Embedding of `sigaction` (proc.c).  Result: the C return value, the updated record, and
the value delivered to the memory the caller's `oldact` pointer designates —
always `none`, because both `memmove(&oldact, ...)` calls in the source write
the function's own local copy of the `oldact` pointer (the `copyout` calls are
commented out), so nothing ever reaches the caller's buffer.  The
`act == SIG_DFL` branch of the source is unreachable: `SIG_DFL` is the null
pointer already rejected by the `act == 0` check, so its
`signal_handlers[signum] = &act` store of a local's address never executes. -/
def sigaction (p : Proc) (signum : Int) (act oldact : Nat) : Int × Proc × Option Nat :=
  if signum < 0 ∨ 31 < signum then (-1, p, none)
  else if signum = (SIGKILL : Nat) ∨ signum = (SIGSTOP : Nat) then (-1, p, none)
  else if act = 0 then (-1, p, none)
  else if act = SIG_DFL then (0, p, none)
  else
    let _oldact_local := if oldact ≠ 0 then p.signal_handlers.getD signum.toNat 0 else oldact
    (0, { p with signal_handlers := p.signal_handlers.set signum.toNat act }, none)

/-- The scan of `kill` (proc.c) from table index `i` on.  Each iteration
acquires the record's lock; the triple returned is the C return value, the
table, and the list of per-record locks still held at the return statement:
the match-but-already-`killed`/`ZOMBIE`/`UNUSED` arm returns `-1` *without*
a `release`, so its lock index stays in the held list. -/
def killScan (pid op : Nat) : List Proc → Nat → Int × List Proc × List Nat
  | [], _ => (-1, [], [])
  | p :: rest, i =>
    if p.pid = pid then
      if p.killed ∨ p.state = ProcState.ZOMBIE ∨ p.state = ProcState.UNUSED then
        (-1, p :: rest, [i])
      else
        (0, { p with pending_signals := p.pending_signals ||| op } :: rest, [])
    else
      let r := killScan pid op rest (i + 1)
      (r.1, p :: r.2.1, r.2.2)

/-- Embedding of `kill(pid, signum)` (proc.c): reject an out-of-range signal number, then
scan the table for the pid; on a live match OR bit `signum` into
`pending_signals` and return 0, otherwise return -1.  The lock-held list is
as in `killScan`. -/
def kill (tbl : List Proc) (pid : Nat) (signum : Int) : Int × List Proc × List Nat :=
  if signum < 0 ∨ 31 < signum then (-1, tbl, [])
  else killScan pid (1 <<< signum.toNat) tbl 0

/-- Embedding of `freeproc` (proc.c): release the trap-frame page and the page table, then
clear `sz`, `pid`, `parent`, `name`, `chan`, `killed`, `xstate` and set the
slot `UNUSED`.  (The signal fields are *not* touched here; `allocproc` resets
them on reuse.) -/
def freeproc (p : Proc) : Proc :=
  { p with trapframe := none, pagetable := false, sz := 0, pid := 0,
           parent := none, name := "", chan := none, killed := false,
           xstate := 0, state := ProcState.UNUSED }

/-- Embedding of `allocproc` (proc.c), restricted to one candidate slot (the C scan stops at
the first `UNUSED` slot; the claims quantify over that slot).  `newpid` is the
value `allocpid()` hands out, `tfPage` is the outcome of the trap-frame
`kalloc` (`none` = allocation failure), `ptOk` the outcome of
`proc_pagetable`.  On success the slot is claimed: pid assigned, state `USED`,
all 32 handlers reset to `SIG_DFL`, mask/pending/stopped/handling cleared,
trap frame and page table installed.  On failure the partially initialized
slot is rolled back through `freeproc`.  Returns (initialized record if any,
slot contents afterwards). -/
def allocproc (slot : Proc) (newpid : Nat) (tfPage : Option TrapFrame) (ptOk : Bool) :
    Option Proc × Proc :=
  if slot.state = ProcState.UNUSED then
    let q := { slot with
               pid := newpid, state := ProcState.USED,
               signal_handlers := List.replicate 32 SIG_DFL,
               signals_mask := 0, pending_signals := 0,
               stopped := false, signal_handling := false }
    match tfPage with
    | none => (none, freeproc q)
    | some tf =>
      let q := { q with trapframe := some tf }
      if ptOk then
        let q := { q with pagetable := true }
        (some q, q)
      else
        (none, freeproc q)
  else
    (none, slot)

/-- The open-file duplication loop of `fork` (proc.c):
`for i < NOFILE: if (p->ofile[i]) np->ofile[i] = filedup(p->ofile[i])`
(`filedup` bumps a refcount and returns the same reference). -/
def copyOfiles : List Nat → List Nat → List Nat
  | [], c => c
  | _ :: _, [] => []
  | pf :: ps, cf :: cs => (if pf ≠ 0 then pf else cf) :: copyOfiles ps cs

/-- Embedding of `fork` (proc.c) for parent record `p` at table index `pidx` and candidate
child slot `slot`: allocate the child (see `allocproc`), copy the user address
space (`uvmcopyOk` is `uvmcopy`'s outcome; on failure `freeproc` the child and
return -1), copy `sz`, the 32 handler entries and the mask, zero the child's
pending set, copy the saved register image forcing the child's `a0` to 0,
duplicate open files and cwd, copy the name, publish `parent` under
`wait_lock`, mark the child `RUNNABLE`, and return the child's pid.  The
result is (return value, parent record after, child slot after): the parent
record is never written. -/
def fork (p : Proc) (pidx : Nat) (slot : Proc) (newpid : Nat)
    (tfPage : Option TrapFrame) (ptOk uvmcopyOk : Bool) : Int × Proc × Proc :=
  match allocproc slot newpid tfPage ptOk with
  | (none, slotAfter) => (-1, p, slotAfter)
  | (some np, _) =>
    if uvmcopyOk = false then
      (-1, p, freeproc np)
    else
      let np := { np with sz := p.sz }
      let np := { np with signal_handlers := p.signal_handlers }
      let np := { np with signals_mask := p.signals_mask, pending_signals := 0 }
      let np := { np with trapframe := p.trapframe }
      let np := { np with trapframe := np.trapframe.map fun (tf : TrapFrame) => { tf with a0 := 0 } }
      let np := { np with ofile := copyOfiles p.ofile np.ofile, cwd := p.cwd }
      let np := { np with name := p.name }
      let pid := np.pid
      let np := { np with parent := some pidx }
      let np := { np with state := ProcState.RUNNABLE }
      (pid, p, np)

/-- The scan of `wakeup(chan)` (proc.c) with `i` the index of the head record:
every record other than the caller (`selfIdx`, the C `p != myproc()` test)
that is `SLEEPING` on the matching channel becomes `RUNNABLE`. -/
def wakeupGo (selfIdx : Nat) (chan : Option Nat) : List Proc → Nat → List Proc
  | [], _ => []
  | q :: rest, i =>
    (if i ≠ selfIdx ∧ q.state = ProcState.SLEEPING ∧ q.chan = chan then
      { q with state := ProcState.RUNNABLE }
     else q) :: wakeupGo selfIdx chan rest (i + 1)

/-- Embedding of `wakeup` (proc.c): broadcast wake of all sleepers on `chan`, called by the
process at `selfIdx`. -/
def wakeup (tbl : List Proc) (selfIdx : Nat) (chan : Option Nat) : List Proc :=
  wakeupGo selfIdx chan tbl 0

/-- One iteration of `reparent`'s scan (proc.c): if the record at `i` has the
exiting process `pIdx` as parent, point its `parent` at `initIdx` and
`wakeup(initproc)` (the caller being the exiting process). -/
def reparentStep (pIdx initIdx i : Nat) (tbl : List Proc) : List Proc :=
  if (pget tbl i).parent = some pIdx then
    wakeup (updateAt i (fun q => { q with parent := some initIdx }) tbl) pIdx (some initIdx)
  else
    tbl

/-- The full scan of `reparent` over the given index order. -/
def reparentGo (pIdx initIdx : Nat) : List Nat → List Proc → List Proc
  | [], tbl => tbl
  | i :: is, tbl => reparentGo pIdx initIdx is (reparentStep pIdx initIdx i tbl)

/-- Embedding of `reparent` (proc.c): pass every child of the exiting process `pIdx` to the
bootstrap process `initIdx`, waking the latter each time. -/
def reparent (pIdx initIdx : Nat) (tbl : List Proc) : List Proc :=
  reparentGo pIdx initIdx (List.range tbl.length) tbl

/-- The outcome of `exit` (proc.c): a kernel panic, or control handed to the
scheduler for good with the table in the given final state.  There is no
normal-return constructor — the source ends in `sched(); panic("zombie exit")`,
so `exit` never returns to its caller. -/
inductive ExitResult where
  | panicked (msg : String)
  | switched (tbl : List Proc)
deriving DecidableEq, Repr

/-- The table transformation of a non-init `exit` (proc.c): close every open
file and drop the cwd, reparent the children to `initIdx` (waking it), wake
the parent (`wakeup(p->parent)`, the channel being the parent record, read
after `reparent` ran), then record the exit status and set state `ZOMBIE`. -/
def exitTable (tbl : List Proc) (pIdx initIdx : Nat) (status : Int) : List Proc :=
  let tbl := updateAt pIdx
    (fun q => { q with ofile := List.replicate NOFILE 0, cwd := 0 }) tbl
  let tbl := reparent pIdx initIdx tbl
  let tbl := wakeup tbl pIdx (pget tbl pIdx).parent
  updateAt pIdx (fun q => { q with xstate := status, state := ProcState.ZOMBIE }) tbl

/-- Embedding of `exit(status)` (proc.c): `panic("init exiting")` when the caller is the
bootstrap process, otherwise the `exitTable` transformation followed by the
permanent switch into the scheduler. -/
def exit (tbl : List Proc) (pIdx initIdx : Nat) (status : Int) : ExitResult :=
  if pIdx = initIdx then ExitResult.panicked "init exiting"
  else ExitResult.switched (exitTable tbl pIdx initIdx status)

/-- One scan of `wait`'s child-search loop (proc.c), for the caller at `pIdx`
with user output address `addr` (`copyoutOk` is the outcome `copyout` would
report).  Returns `(some (ret, table, delivered), havekids)` when a `ZOMBIE`
child is found — `delivered` is the exit status copied to user space, `none`
on the `copyout`-failure return or when `addr == 0` — and `(none, havekids)`
when no child is `ZOMBIE`. -/
def waitScan (pIdx addr : Nat) (copyoutOk : Bool) :
    List Proc → Option (Int × List Proc × Option Int) × Bool
  | [] => (none, false)
  | np :: rest =>
    if np.parent = some pIdx then
      if np.state = ProcState.ZOMBIE then
        if addr ≠ 0 ∧ copyoutOk = false then
          (some (-1, np :: rest, none), true)
        else
          (some ((np.pid : Int), freeproc np :: rest,
                 if addr ≠ 0 then some np.xstate else none), true)
      else
        match waitScan pIdx addr copyoutOk rest with
        | (some (v, tbl, d), _) => (some (v, np :: tbl, d), true)
        | (none, _) => (none, true)
    else
      match waitScan pIdx addr copyoutOk rest with
      | (some (v, tbl, d), hk) => (some (v, np :: tbl, d), hk)
      | (none, hk) => (none, hk)

/-- The result of one pass of `wait` (proc.c): a return to the caller with the
table and the exit status delivered to user memory, or the blocking arm —
`sleep(p, &wait_lock)` on the caller's own record as channel, after which the
loop rescans. -/
inductive WaitResult where
  | ret (v : Int) (tbl : List Proc) (delivered : Option Int)
  | block (tbl : List Proc)
deriving DecidableEq, Repr

/-- One pass of `wait(addr)` (proc.c): scan for a `ZOMBIE` child — if one is
found, copy its status out (failure returns -1 leaving the child alone),
`freeproc` it and return its pid; with no children at all, or the caller
killed, return -1; otherwise sleep on the caller's own record and retry. -/
def wait (tbl : List Proc) (pIdx addr : Nat) (copyoutOk : Bool) : WaitResult :=
  match waitScan pIdx addr copyoutOk tbl with
  | (some (v, tbl', d), _) => WaitResult.ret v tbl' d
  | (none, hk) =>
    if hk = false ∨ (pget tbl pIdx).killed then
      WaitResult.ret (-1) tbl none
    else
      WaitResult.block
        (updateAt pIdx
          (fun q => { q with chan := some pIdx, state := ProcState.SLEEPING }) tbl)

/-! ### Generic bit-twiddling helpers -/

theorem testBit_one_shl (s j : Nat) : (1 <<< s).testBit j = decide (j = s) := by
  rw [Nat.shiftLeft_eq, one_mul, Nat.testBit_two_pow]
  simp [eq_comm]

theorem testBit_or_shl (a s j : Nat) :
    (a ||| (1 <<< s)).testBit j = (a.testBit j || decide (j = s)) := by
  rw [Nat.testBit_or, testBit_one_shl]

/-- The 32-bit constant `~(1 << SIGKILL | 1 << SIGSTOP)` stored by
`sigprocmask`, bit by bit. -/
theorem sigmask_store_testBit (j : Nat) (hj : j < 32) :
    (mask32 ^^^ ((1 <<< SIGKILL) ||| (1 <<< SIGSTOP))).testBit j =
      (!decide (j = SIGKILL) && !decide (j = SIGSTOP)) := by
  interval_cases j <;> decide

/-! ### A trivial kernel/user-boundary environment for concrete runs -/

/-- A concrete `UserEnv` for evaluating delivery passes that never reach the
user-handler branch. -/
def envTriv : UserEnv := ⟨fun _ => 0, fun _ => 0, fun _ => default, 288, 16⟩

/-- A running process whose only pending signal is number 5, unmasked, with
the `SIG_IGN` sentinel installed for it — the round-trip scenario of the
spec's ignore test. -/
def pIgn : Proc :=
  { (default : Proc) with
    state := ProcState.RUNNING, pid := 4,
    signal_handlers := (List.replicate 32 SIG_DFL).set 5 SIG_IGN,
    pending_signals := 1 <<< 5 }

/-- The same scenario with the default action installed instead. -/
def pDfl : Proc :=
  { (default : Proc) with
    state := ProcState.RUNNING, pid := 4,
    pending_signals := 1 <<< 5 }

/-- C1: after one delivery pass in which signal 5 is pending, unmasked and
handled by the ignore action, the source leaves the record completely
unchanged: in particular pending bit 5 is STILL SET, because the `SIG_IGN`
arm's `continue` skips the `turnoff_sigbit` call at the bottom of the loop.
The claim (and the spec) say the pending bit is cleared in every case
including ignore; the same pass with the default action (third conjunct)
does clear the bit, isolating the ignore arm as the defective one. -/
theorem C1_sig_ign_pending_bit_not_cleared :
    signalhandler envTriv pIgn = some (pIgn, []) ∧
    pIgn.pending_signals.testBit 5 = true ∧
    signalhandler envTriv pDfl =
      some ({ pDfl with killed := true, pending_signals := 0 }, []) := by
  decide

/-- The record `kill`'s failure path is exercised on: a ZOMBIE with pid 5. -/
def killVictim : Proc := { (default : Proc) with state := ProcState.ZOMBIE, pid := 5 }

/-- C2: `kill(5, 3)` against a table whose pid-5 record is a ZOMBIE returns -1
with the record's lock (index 0) still in the held-locks list: the
early-return path `if(p->killed || p->state==ZOMBIE || p->state==UNUSED)
return -1;` has no `release(&p->lock)`.  The claim (and the spec's design
note, which flags exactly this as a defect to fix) requires every return
path of `kill` to release the lock. -/
theorem C2_kill_early_return_leaks_lock :
    kill [killVictim] 5 3 = (-1, [killVictim], [0]) ∧ ([0] : List Nat) ≠ [] := by
  decide

/-- A process with the ignore sentinel installed for signal 2, used to show
`sigaction` never reports the previous handler to the caller. -/
def pSA : Proc :=
  { (default : Proc) with
    state := ProcState.RUNNING, pid := 4,
    signal_handlers := (List.replicate 32 SIG_DFL).set 2 SIG_IGN }

/-- C3: `sigaction(2, act, oldact)` with a custom handler pointer `act = 4096`
and a non-null `oldact = 8192` returns 0 and stores the new handler value into
slot 2, but delivers nothing to the caller's `oldact` location (third
component `none`): both `memmove(&oldact, ...)` calls in the source write the
local copy of the pointer and the `copyout` is commented out, so the
previously installed handler (`SIG_IGN`, second conjunct) is lost.  The
remaining conjuncts check the rejection paths the claim lists: out-of-range
number, the two non-maskable signals, and a null new-handler argument all
return -1 with the record unchanged. -/
theorem C3_sigaction_oldact_never_written :
    sigaction pSA 2 4096 8192 =
      (0, { pSA with signal_handlers := pSA.signal_handlers.set 2 4096 }, none) ∧
    pSA.signal_handlers.getD 2 0 = SIG_IGN ∧
    sigaction pSA 32 4096 8192 = (-1, pSA, none) ∧
    sigaction pSA (-1) 4096 8192 = (-1, pSA, none) ∧
    sigaction pSA 9 4096 8192 = (-1, pSA, none) ∧
    sigaction pSA 17 4096 8192 = (-1, pSA, none) ∧
    sigaction pSA 2 0 8192 = (-1, pSA, none) := by
  decide

/-- C6: `sigprocmask(m)` returns the previously stored mask and stores `m`
with the two non-maskable bits (`SIGKILL`, `SIGSTOP`) forced clear (stated bit
by bit over the 32-bit range); and for any stored mask whatsoever, a pending
non-maskable signal passes the delivery eligibility test
`is_pending_and_not_masked`, because the predicate's `non_maskable` constant
already excludes those two bits from the mask before testing it. -/
theorem C6_sigprocmask_nonmaskable (p : Proc) (m : Nat) :
    (sigprocmask p m).1 = p.signals_mask ∧
    (∀ j, j < 32 →
      (sigprocmask p m).2.signals_mask.testBit j =
        (m.testBit j && !decide (j = SIGKILL) && !decide (j = SIGSTOP))) ∧
    (∀ q s, (s = SIGKILL ∨ s = SIGSTOP) → q.pending_signals.testBit s = true →
      is_pending_and_not_masked q s = true) := by
  refine ⟨rfl, ?_, ?_⟩
  · intro j hj
    show ((m % 2 ^ 32) &&& (mask32 ^^^ ((1 <<< SIGKILL) ||| (1 <<< SIGSTOP)))).testBit j = _
    rw [Nat.testBit_and, Nat.testBit_mod_two_pow, sigmask_store_testBit j hj]
    simp [hj, Bool.and_assoc]
  · intro q s hs hbit
    have hne : q.pending_signals &&& (1 <<< s) ≠ 0 := by
      intro h0
      have : (q.pending_signals &&& (1 <<< s)).testBit s = false := by
        rw [h0]; exact Nat.zero_testBit s
      rw [Nat.testBit_and, testBit_one_shl, hbit] at this
      simp at this
    have hz : (q.signals_mask &&&
        ((mask64 ^^^ (1 <<< SIGKILL)) &&& (mask64 ^^^ (1 <<< SIGSTOP)))) &&& (1 <<< s) = 0 := by
      rw [Nat.and_assoc]
      rcases hs with h | h <;> subst h
      · have : ((mask64 ^^^ (1 <<< SIGKILL)) &&& (mask64 ^^^ (1 <<< SIGSTOP))) &&&
            (1 <<< SIGKILL) = 0 := by decide
        rw [this, Nat.and_zero]
      · have : ((mask64 ^^^ (1 <<< SIGKILL)) &&& (mask64 ^^^ (1 <<< SIGSTOP))) &&&
            (1 <<< SIGSTOP) = 0 := by decide
        rw [this, Nat.and_zero]
    simp [is_pending_and_not_masked, hne, hz]

/-- Witness for C6 at a concrete record and mask: a request to mask every
signal leaves `SIGKILL`'s bit clear in the stored mask, the old mask is
returned, and a pending `SIGKILL` stays deliverable under the all-ones mask. -/
theorem C6_sigprocmask_nonmaskable_witness :
    (sigprocmask pIgn 4294967295).1 = pIgn.signals_mask ∧
    (sigprocmask pIgn 4294967295).2.signals_mask.testBit SIGKILL = false ∧
    is_pending_and_not_masked
      { pIgn with pending_signals := 1 <<< SIGKILL, signals_mask := 4294967295 }
      SIGKILL = true := by
  have h := C6_sigprocmask_nonmaskable pIgn 4294967295
  refine ⟨h.1, ?_, ?_⟩
  · have h2 := h.2.1 SIGKILL (by decide)
    rw [h2]; decide
  · exact h.2.2 _ SIGKILL (Or.inl rfl) (by decide)

/-! ### The `kill` scan -/

theorem killScan_no_match (pid op : Nat) (tbl : List Proc) (i : Nat)
    (h : ∀ r ∈ tbl, r.pid ≠ pid) :
    killScan pid op tbl i = (-1, tbl, []) := by
  induction tbl generalizing i with
  | nil => rfl
  | cons p rest ih =>
    have hp : p.pid ≠ pid := h p (List.mem_cons_self p rest)
    simp [killScan, hp, ih (i + 1) (fun r hr => h r (List.mem_cons_of_mem p hr))]

theorem killScan_first_match (pid op : Nat) (l₁ l₂ : List Proc) (q : Proc) (i : Nat)
    (h1 : ∀ r ∈ l₁, r.pid ≠ pid) (hq : q.pid = pid) :
    killScan pid op (l₁ ++ q :: l₂) i =
      if q.killed ∨ q.state = ProcState.ZOMBIE ∨ q.state = ProcState.UNUSED then
        (-1, l₁ ++ q :: l₂, [i + l₁.length])
      else
        (0, l₁ ++ { q with pending_signals := q.pending_signals ||| op } :: l₂, []) := by
  induction l₁ generalizing i with
  | nil =>
    simp only [List.nil_append, killScan, hq, if_pos rfl, List.length_nil, Nat.add_zero]
    split <;> simp_all
  | cons p rest ih =>
    have hp : p.pid ≠ pid := h1 p (List.mem_cons_self p rest)
    have ih' := ih (i + 1) (fun r hr => h1 r (List.mem_cons_of_mem p hr))
    have hlen : i + 1 + rest.length = i + (rest.length + 1) := by omega
    by_cases hb : q.killed ∨ q.state = ProcState.ZOMBIE ∨ q.state = ProcState.UNUSED
    · rw [if_pos hb] at ih' ⊢
      simp [killScan, if_neg hp, List.append_eq, ih', hlen]
    · rw [if_neg hb] at ih' ⊢
      simp [killScan, if_neg hp, List.append_eq, ih']

/-- C4: `kill(pid, signum)` returns -1 on an out-of-range signal number with
the table untouched; returns -1 with the table untouched when no record has
the pid; when the first record with the pid is already killed, `ZOMBIE` or
`UNUSED`, returns -1 with the table untouched (and, per the source, that
record's lock still held); otherwise returns 0 having changed exactly the
first matching record, and in that record exactly the `pending_signals`
field, by OR-ing in bit `signum` (final conjunct: the new pending set bit by
bit — duplicate raises collapse, nothing is queued, and no retry exists in
the single scan). -/
theorem C4_kill_cases (tbl l₁ l₂ : List Proc) (q : Proc) (pid : Nat) (signum : Int) :
    ((signum < 0 ∨ 31 < signum) → kill tbl pid signum = (-1, tbl, [])) ∧
    (0 ≤ signum → signum ≤ 31 →
      ((∀ r ∈ tbl, r.pid ≠ pid) → kill tbl pid signum = (-1, tbl, [])) ∧
      ((∀ r ∈ l₁, r.pid ≠ pid) → q.pid = pid →
        ((q.killed ∨ q.state = ProcState.ZOMBIE ∨ q.state = ProcState.UNUSED) →
          kill (l₁ ++ q :: l₂) pid signum = (-1, l₁ ++ q :: l₂, [l₁.length])) ∧
        (¬(q.killed ∨ q.state = ProcState.ZOMBIE ∨ q.state = ProcState.UNUSED) →
          kill (l₁ ++ q :: l₂) pid signum =
            (0, l₁ ++
              { q with pending_signals := q.pending_signals ||| (1 <<< signum.toNat) } :: l₂,
             []) ∧
          ∀ j, (q.pending_signals ||| (1 <<< signum.toNat)).testBit j =
            (q.pending_signals.testBit j || decide (j = signum.toNat))))) := by
  constructor
  · intro h
    simp [kill, h]
  · intro h0 h31
    have hrange : ¬(signum < 0 ∨ 31 < signum) := by omega
    constructor
    · intro h
      simp [kill, hrange, killScan_no_match pid _ tbl 0 h]
    · intro h1 hq
      constructor
      · intro hbad
        simp [kill, hrange, killScan_first_match pid _ l₁ l₂ q 0 h1 hq, hbad]
      · intro hgood
        refine ⟨?_, fun j => testBit_or_shl _ _ j⟩
        simp [kill, hrange, killScan_first_match pid _ l₁ l₂ q 0 h1 hq, hgood]

/-- Witness for C4: an unknown pid fails; a pid whose record is a ZOMBIE
fails (lock index 1 left held); a live pid gets exactly bit 3 set. -/
theorem C4_kill_cases_witness :
    kill [pIgn] 77 3 = (-1, [pIgn], []) ∧
    kill [pSA, killVictim] 5 3 = (-1, [pSA, killVictim], [1]) ∧
    kill [pSA] 4 3 = (0, [{ pSA with pending_signals := 8 }], []) := by
  refine ⟨((C4_kill_cases [pIgn] [] [] default 77 3).2 (by decide) (by decide)).1
      (by decide), ?_, ?_⟩
  · have h := (((C4_kill_cases [] [pSA] [] killVictim 5 3).2 (by decide) (by decide)).2
      (by decide) (by decide)).1 (by decide)
    exact h.trans (by decide)
  · have h := ((((C4_kill_cases [] [] [] pSA 4 3).2 (by decide) (by decide)).2
      (by decide) (by decide)).2 (by decide)).1
    exact h.trans (by decide)

/-! ### The reentrancy guard -/

theorem killScan_signal_handling (pid op : Nat) (tbl : List Proc) (i j : Nat) :
    (pget (killScan pid op tbl i).2.1 j).signal_handling = (pget tbl j).signal_handling := by
  induction tbl generalizing i j with
  | nil => rfl
  | cons p rest ih =>
    simp only [killScan]
    split
    · split
      · rfl
      · cases j <;> rfl
    · cases j with
      | zero => rfl
      | succ n => exact ih (i + 1) n

/-- C5: while a process's `signal_handling` guard is set, a delivery pass is a
complete no-op — the record is returned unchanged and no user-memory write
(hence no handler dispatch) occurs, whatever is pending; and among the signal
operations only the return protocol clears the guard: `sigret` resets it to
false, while `kill` (on any record of any table), `sigprocmask` and
`sigaction` leave it untouched. -/
theorem C5_reentrancy_guard (env : UserEnv) (p : Proc) (tbl : List Proc)
    (pid j : Nat) (signum sn : Int) (m a o : Nat)
    (h : p.signal_handling = true) :
    signalhandler env p = some (p, []) ∧
    (sigret env p).signal_handling = false ∧
    (pget (kill tbl pid signum).2.1 j).signal_handling = (pget tbl j).signal_handling ∧
    (sigprocmask p m).2.signal_handling = true ∧
    (sigaction p sn a o).2.1.signal_handling = true := by
  refine ⟨by simp [signalhandler, h], rfl, ?_, h, ?_⟩
  · unfold kill
    split
    · rfl
    · exact killScan_signal_handling pid _ tbl 0 j
  · unfold sigaction
    split
    · exact h
    · split
      · exact h
      · split
        · exact h
        · split
          · exact h
          · exact h

/-- Witness for C5: with the guard set and a pending, unmasked, ignorable
signal, the pass changes nothing; `sigret` then clears the guard. -/
theorem C5_reentrancy_guard_witness :
    signalhandler envTriv { pIgn with signal_handling := true } =
      some ({ pIgn with signal_handling := true }, []) ∧
    (sigret envTriv { pIgn with signal_handling := true }).signal_handling = false := by
  have h := C5_reentrancy_guard envTriv { pIgn with signal_handling := true }
    [] 0 0 0 0 0 0 0 (by decide)
  exact ⟨h.1, h.2.1⟩

/-- C7: a successful `fork` (slot free, trap-frame page and page table
allocated, `uvmcopy` succeeded) returns the child's pid, leaves the parent
record untouched, and builds a child whose handler table and mask equal the
parent's, whose pending set is 0, and whose saved register image equals the
parent's except for `a0 = 0`; the child carries the new pid, the parent index
and state `RUNNABLE`.  Every failure path — no free slot, trap-frame
allocation failure, page-table failure, `uvmcopy` failure — returns -1 with
the parent untouched and the partially built child rolled back to `UNUSED`. -/
theorem C7_fork_inheritance_and_rollback (p slot : Proc) (pidx newpid : Nat)
    (tf0 ptf : TrapFrame) (tfP : Option TrapFrame) (ptOk uv : Bool)
    (hs : slot.state = ProcState.UNUSED) (hp : p.trapframe = some ptf) :
    ((fork p pidx slot newpid (some tf0) true true).1 = (newpid : Int) ∧
     (fork p pidx slot newpid (some tf0) true true).2.1 = p ∧
     (fork p pidx slot newpid (some tf0) true true).2.2.signal_handlers = p.signal_handlers ∧
     (fork p pidx slot newpid (some tf0) true true).2.2.signals_mask = p.signals_mask ∧
     (fork p pidx slot newpid (some tf0) true true).2.2.pending_signals = 0 ∧
     (fork p pidx slot newpid (some tf0) true true).2.2.trapframe = some { ptf with a0 := 0 } ∧
     (fork p pidx slot newpid (some tf0) true true).2.2.pid = newpid ∧
     (fork p pidx slot newpid (some tf0) true true).2.2.parent = some pidx ∧
     (fork p pidx slot newpid (some tf0) true true).2.2.state = ProcState.RUNNABLE) ∧
    ((fork p pidx slot newpid none ptOk uv).1 = -1 ∧
     (fork p pidx slot newpid none ptOk uv).2.1 = p ∧
     (fork p pidx slot newpid none ptOk uv).2.2.state = ProcState.UNUSED) ∧
    ((fork p pidx slot newpid tfP false uv).1 = -1 ∧
     (fork p pidx slot newpid tfP false uv).2.1 = p ∧
     (fork p pidx slot newpid tfP false uv).2.2.state = ProcState.UNUSED) ∧
    ((fork p pidx slot newpid (some tf0) true false).1 = -1 ∧
     (fork p pidx slot newpid (some tf0) true false).2.1 = p ∧
     (fork p pidx slot newpid (some tf0) true false).2.2.state = ProcState.UNUSED) ∧
    (∀ s2 : Proc, s2.state ≠ ProcState.UNUSED →
      fork p pidx s2 newpid tfP ptOk uv = (-1, p, s2)) := by
  refine ⟨?_, ?_, ?_, ?_, ?_⟩
  · simp [fork, allocproc, hs, hp]
  · simp [fork, allocproc, freeproc, hs]
  · cases tfP <;> simp [fork, allocproc, freeproc, hs]
  · simp [fork, allocproc, freeproc, hs]
  · intro s2 h2
    simp [fork, allocproc, h2]

/-- A parent process with a populated register image and signal state, for
the `fork` witness. -/
def pPar : Proc :=
  { (default : Proc) with
    state := ProcState.RUNNING, pid := 2, sz := 4096,
    trapframe := some ⟨100, 200, 300, 7, [1, 2, 3]⟩,
    signal_handlers := (List.replicate 32 SIG_DFL).set 5 4096,
    signals_mask := 12, pending_signals := 3 }

/-- Witness for C7: forking `pPar` into a free slot with pid 9 returns 9,
inherits handlers and mask, zeroes pending, copies the register image with
`a0 = 0`, and a `uvmcopy` failure rolls the child back to `UNUSED`. -/
theorem C7_fork_inheritance_and_rollback_witness :
    (fork pPar 2 default 9 (some default) true true).1 = 9 ∧
    (fork pPar 2 default 9 (some default) true true).2.2.signal_handlers =
      pPar.signal_handlers ∧
    (fork pPar 2 default 9 (some default) true true).2.2.signals_mask = 12 ∧
    (fork pPar 2 default 9 (some default) true true).2.2.pending_signals = 0 ∧
    (fork pPar 2 default 9 (some default) true true).2.2.trapframe =
      some ⟨100, 200, 300, 0, [1, 2, 3]⟩ ∧
    (fork pPar 2 default 9 (some default) true false).2.2.state = ProcState.UNUSED := by
  have h := C7_fork_inheritance_and_rollback pPar default 2 9 default ⟨100, 200, 300, 7, [1, 2, 3]⟩
    (some default) true false (by decide) (by decide)
  exact ⟨h.1.1, h.1.2.2.1, (h.1.2.2.2.1).trans (by decide), h.1.2.2.2.2.1,
    (h.1.2.2.2.2.2.1).trans (by decide), h.2.2.2.1.2.2⟩

/-! ### The `wait` scan -/

theorem waitScan_no_zombie (pIdx addr : Nat) (ok : Bool) (tbl : List Proc)
    (h : ∀ r ∈ tbl, ¬(r.parent = some pIdx ∧ r.state = ProcState.ZOMBIE)) :
    waitScan pIdx addr ok tbl =
      (none, tbl.any fun r => decide (r.parent = some pIdx)) := by
  induction tbl with
  | nil => rfl
  | cons np rest ih =>
    have hnp := h np (List.mem_cons_self np rest)
    have ih' := ih (fun r hr => h r (List.mem_cons_of_mem np hr))
    by_cases hpar : np.parent = some pIdx
    · have hnz : np.state ≠ ProcState.ZOMBIE := fun hz => hnp ⟨hpar, hz⟩
      simp [waitScan, hpar, hnz, ih', List.any_cons]
    · simp [waitScan, hpar, ih', List.any_cons]

theorem waitScan_first_zombie (pIdx addr : Nat) (ok : Bool) (l₁ l₂ : List Proc) (z : Proc)
    (h1 : ∀ r ∈ l₁, ¬(r.parent = some pIdx ∧ r.state = ProcState.ZOMBIE))
    (hzp : z.parent = some pIdx) (hzz : z.state = ProcState.ZOMBIE) :
    waitScan pIdx addr ok (l₁ ++ z :: l₂) =
      (some (if addr ≠ 0 ∧ ok = false then (-1, l₁ ++ z :: l₂, none)
             else ((z.pid : Int), l₁ ++ freeproc z :: l₂,
                   if addr ≠ 0 then some z.xstate else none)), true) := by
  induction l₁ with
  | nil =>
    by_cases hc : addr ≠ 0 ∧ ok = false
    · rw [if_pos hc]
      simp [waitScan, hzp, hzz, hc]
    · rw [if_neg hc]
      simp [waitScan, hzp, hzz, hc]
  | cons r rest ih =>
    have hr := h1 r (List.mem_cons_self r rest)
    have ih' := ih (fun x hx => h1 x (List.mem_cons_of_mem r hx))
    by_cases hpar : r.parent = some pIdx
    · have hnz : r.state ≠ ProcState.ZOMBIE := fun hz => hr ⟨hpar, hz⟩
      by_cases hc : addr ≠ 0 ∧ ok = false
      · rw [if_pos hc] at ih' ⊢
        simp [waitScan, hpar, hnz, List.append_eq, ih']
      · rw [if_neg hc] at ih' ⊢
        simp [waitScan, hpar, hnz, List.append_eq, ih']
    · by_cases hc : addr ≠ 0 ∧ ok = false
      · rw [if_pos hc] at ih' ⊢
        simp [waitScan, hpar, List.append_eq, ih']
      · rw [if_neg hc] at ih' ⊢
        simp [waitScan, hpar, List.append_eq, ih']

/-- C10: when the first `ZOMBIE` child in scan order is found but the
`copyout` of its exit status to the caller's non-zero address fails, `wait`
returns -1 with the table *exactly as it was* — the child is not freed, its
slot still holds its pid and exit status — and nothing was delivered to user
memory; the same call with a succeeding `copyout` (second conjunct) still
reaps the child, returning its pid, delivering its status, and freeing the
slot. -/
theorem C10_wait_copyout_failure_no_reap (l₁ l₂ : List Proc) (z : Proc) (pIdx addr : Nat)
    (h1 : ∀ r ∈ l₁, ¬(r.parent = some pIdx ∧ r.state = ProcState.ZOMBIE))
    (hzp : z.parent = some pIdx) (hzz : z.state = ProcState.ZOMBIE) (ha : addr ≠ 0) :
    wait (l₁ ++ z :: l₂) pIdx addr false = WaitResult.ret (-1) (l₁ ++ z :: l₂) none ∧
    wait (l₁ ++ z :: l₂) pIdx addr true =
      WaitResult.ret (z.pid : Int) (l₁ ++ freeproc z :: l₂) (some z.xstate) := by
  have h := waitScan_first_zombie pIdx addr false l₁ l₂ z h1 hzp hzz
  rw [if_pos ⟨ha, rfl⟩] at h
  have h' := waitScan_first_zombie pIdx addr true l₁ l₂ z h1 hzp hzz
  rw [if_neg (by simp)] at h'
  rw [if_pos ha] at h'
  exact ⟨by simp [wait, h], by simp [wait, h']⟩

/-- A `ZOMBIE` child of the process at index 0, with pid 7 and exit status 3. -/
def cZomb : Proc :=
  { (default : Proc) with
    state := ProcState.ZOMBIE, pid := 7, parent := some 0, xstate := 3 }

/-- Witness for C10: with the zombie child `cZomb` second in the table and a
failing copy-out to address 16, `wait` returns -1 and the table is unchanged;
with a succeeding copy-out it reaps pid 7 and delivers status 3. -/
theorem C10_wait_copyout_failure_no_reap_witness :
    wait [pPar, cZomb] 0 16 false = WaitResult.ret (-1) [pPar, cZomb] none ∧
    wait [pPar, cZomb] 0 16 true =
      WaitResult.ret 7 [pPar, freeproc cZomb] (some 3) := by
  have h := C10_wait_copyout_failure_no_reap [pPar] [] cZomb 0 16
    (by decide) (by decide) (by decide) (by decide)
  exact ⟨h.1.trans (by decide), h.2.trans (by decide)⟩

/-- A running caller at index 0 that has been marked killed. -/
def pKilled : Proc :=
  { (default : Proc) with state := ProcState.RUNNING, pid := 1, killed := true }

/-- Counterexample to C8 as stated: the claim's first clause says `wait`
returns -1 whenever the caller has been marked killed, but a killed caller
with a `ZOMBIE` child gets the child's pid (7 ≠ -1): the source checks
`!havekids || p->killed` only *after* the zombie scan has already returned. -/
theorem C8_wait_killed_with_zombie_child_cex :
    (pget [pKilled, cZomb] 0).killed = true ∧
    wait [pKilled, cZomb] 0 0 true = WaitResult.ret 7 [pKilled, freeproc cZomb] none ∧
    (7 : Int) ≠ -1 := by decide

/-- C8 as amended: `wait` returns -1 when the caller has no children at all,
or when it has children, none of them `ZOMBIE`, and it has been marked
killed; when some child is `ZOMBIE` (the first such in scan order) and the
status copy-out succeeds or no output address was supplied, `wait` delivers
the status (if an address was supplied), frees the child's slot back to
`UNUSED` and returns the child's pid; otherwise — children, none `ZOMBIE`,
caller not killed — it blocks, sleeping on its own record as the channel,
and retries the scan after being woken. -/
theorem C8_wait_cases (tbl l₁ l₂ : List Proc) (z : Proc) (pIdx addr : Nat) (ok : Bool) :
    ((∀ r ∈ tbl, r.parent ≠ some pIdx) →
      wait tbl pIdx addr ok = WaitResult.ret (-1) tbl none) ∧
    ((∀ r ∈ tbl, r.parent = some pIdx → r.state ≠ ProcState.ZOMBIE) →
     (∃ r ∈ tbl, r.parent = some pIdx) → (pget tbl pIdx).killed = true →
      wait tbl pIdx addr ok = WaitResult.ret (-1) tbl none) ∧
    ((∀ r ∈ l₁, ¬(r.parent = some pIdx ∧ r.state = ProcState.ZOMBIE)) →
     z.parent = some pIdx → z.state = ProcState.ZOMBIE → (addr = 0 ∨ ok = true) →
      wait (l₁ ++ z :: l₂) pIdx addr ok =
        WaitResult.ret (z.pid : Int) (l₁ ++ freeproc z :: l₂)
          (if addr ≠ 0 then some z.xstate else none) ∧
      (freeproc z).state = ProcState.UNUSED) ∧
    ((∀ r ∈ tbl, r.parent = some pIdx → r.state ≠ ProcState.ZOMBIE) →
     (∃ r ∈ tbl, r.parent = some pIdx) → (pget tbl pIdx).killed = false →
      wait tbl pIdx addr ok =
        WaitResult.block
          (updateAt pIdx
            (fun q => { q with chan := some pIdx, state := ProcState.SLEEPING }) tbl)) := by
  refine ⟨?_, ?_, ?_, ?_⟩
  · intro h
    have hnz : ∀ r ∈ tbl, ¬(r.parent = some pIdx ∧ r.state = ProcState.ZOMBIE) :=
      fun r hr hc => h r hr hc.1
    have hany : (tbl.any fun r => decide (r.parent = some pIdx)) = false := by
      rw [List.any_eq_false]
      intro r hr
      simpa using h r hr
    simp [wait, waitScan_no_zombie pIdx addr ok tbl hnz, hany]
  · intro h hex hk
    have hnz : ∀ r ∈ tbl, ¬(r.parent = some pIdx ∧ r.state = ProcState.ZOMBIE) :=
      fun r hr hc => h r hr hc.1 hc.2
    simp [wait, waitScan_no_zombie pIdx addr ok tbl hnz, hk]
  · intro h1 hzp hzz hok
    have hc : ¬(addr ≠ 0 ∧ ok = false) := by
      rcases hok with h | h <;> simp [h]
    have hsc := waitScan_first_zombie pIdx addr ok l₁ l₂ z h1 hzp hzz
    rw [if_neg hc] at hsc
    exact ⟨by simp [wait, hsc], rfl⟩
  · intro h hex hk
    have hnz : ∀ r ∈ tbl, ¬(r.parent = some pIdx ∧ r.state = ProcState.ZOMBIE) :=
      fun r hr hc => h r hr hc.1 hc.2
    have hany : (tbl.any fun r => decide (r.parent = some pIdx)) = true := by
      rw [List.any_eq_true]
      obtain ⟨r, hr, hp⟩ := hex
      exact ⟨r, hr, by simpa using hp⟩
    simp [wait, waitScan_no_zombie pIdx addr ok tbl hnz, hany, hk]

/-- A child of index 0 that is still running (not yet `ZOMBIE`). -/
def cRun : Proc :=
  { (default : Proc) with state := ProcState.RUNNING, pid := 8, parent := some 0 }

/-- Witness for the amended C8: a caller with no children fails; a zombie
child is reaped with its status delivered; a killed caller whose only child
is not a zombie fails; an unkilled caller with only a running child blocks,
sleeping on its own record. -/
theorem C8_wait_cases_witness :
    wait [pPar] 0 0 true = WaitResult.ret (-1) [pPar] none ∧
    wait [pPar, cZomb] 0 16 true =
      WaitResult.ret 7 [pPar, freeproc cZomb] (some 3) ∧
    wait [pKilled, cRun] 0 0 true = WaitResult.ret (-1) [pKilled, cRun] none ∧
    wait [pPar, cRun] 0 0 true =
      WaitResult.block
        [{ pPar with chan := some 0, state := ProcState.SLEEPING }, cRun] := by
  refine ⟨?_, ?_, ?_, ?_⟩
  · exact (C8_wait_cases [pPar] [] [] default 0 0 true).1 (by decide)
  · have h := ((C8_wait_cases [] [pPar] [] cZomb 0 16 true).2.2.1
      (by decide) (by decide) (by decide) (Or.inr rfl)).1
    exact h.trans (by decide)
  · exact (C8_wait_cases [pKilled, cRun] [] [] default 0 0 true).2.1
      (by decide) ⟨cRun, by decide, by decide⟩ (by decide)
  · have h := (C8_wait_cases [pPar, cRun] [] [] default 0 0 true).2.2.2
      (by decide) ⟨cRun, by decide, by decide⟩ (by decide)
    exact h.trans (by decide)

/-! ### Table, wakeup and reparent lemmas -/

theorem pget_of_ge (tbl : List Proc) (j : Nat) (h : tbl.length ≤ j) : pget tbl j = default := by
  induction tbl generalizing j with
  | nil => cases j <;> rfl
  | cons q rest ih =>
    cases j with
    | zero => simp at h
    | succ n => exact ih n (by simpa using h)

theorem updateAt_length (i : Nat) (f : Proc → Proc) (tbl : List Proc) :
    (updateAt i f tbl).length = tbl.length := by
  induction tbl generalizing i with
  | nil => cases i <;> rfl
  | cons q rest ih => cases i <;> simp [updateAt, ih]

theorem pget_updateAt_self (i : Nat) (f : Proc → Proc) (tbl : List Proc) (h : i < tbl.length) :
    pget (updateAt i f tbl) i = f (pget tbl i) := by
  induction tbl generalizing i with
  | nil => simp at h
  | cons q rest ih =>
    cases i with
    | zero => rfl
    | succ n => exact ih n (by simpa using h)

theorem pget_updateAt_ne (i j : Nat) (f : Proc → Proc) (tbl : List Proc) (h : j ≠ i) :
    pget (updateAt i f tbl) j = pget tbl j := by
  induction tbl generalizing i j with
  | nil => cases i <;> rfl
  | cons q rest ih =>
    cases i with
    | zero =>
      cases j with
      | zero => exact absurd rfl h
      | succ m => rfl
    | succ n =>
      cases j with
      | zero => rfl
      | succ m => exact ih n m (fun hh => h (by rw [hh]))

theorem wakeupGo_length (s : Nat) (c : Option Nat) (tbl : List Proc) (k : Nat) :
    (wakeupGo s c tbl k).length = tbl.length := by
  induction tbl generalizing k with
  | nil => rfl
  | cons q rest ih => simp [wakeupGo, ih]

theorem wakeup_length (tbl : List Proc) (s : Nat) (c : Option Nat) :
    (wakeup tbl s c).length = tbl.length :=
  wakeupGo_length s c tbl 0

theorem pget_wakeupGo (s : Nat) (c : Option Nat) (tbl : List Proc) (k j : Nat)
    (hj : j < tbl.length) :
    pget (wakeupGo s c tbl k) j =
      (if k + j ≠ s ∧ (pget tbl j).state = ProcState.SLEEPING ∧ (pget tbl j).chan = c then
        { pget tbl j with state := ProcState.RUNNABLE }
       else pget tbl j) := by
  induction tbl generalizing k j with
  | nil => simp at hj
  | cons q rest ih =>
    cases j with
    | zero => simp [wakeupGo, pget]
    | succ m =>
      have hj' : m < rest.length := by simpa using hj
      have ih' := ih (k + 1) m hj'
      have harith : k + 1 + m = k + (m + 1) := by omega
      rw [harith] at ih'
      simp only [wakeupGo, pget, ih']

theorem pget_wakeup (tbl : List Proc) (s : Nat) (c : Option Nat) (j : Nat)
    (hj : j < tbl.length) :
    pget (wakeup tbl s c) j =
      (if j ≠ s ∧ (pget tbl j).state = ProcState.SLEEPING ∧ (pget tbl j).chan = c then
        { pget tbl j with state := ProcState.RUNNABLE }
       else pget tbl j) := by
  have h := pget_wakeupGo s c tbl 0 j hj
  simpa [wakeup] using h

theorem pget_wakeup_parent (tbl : List Proc) (s : Nat) (c : Option Nat) (j : Nat) :
    (pget (wakeup tbl s c) j).parent = (pget tbl j).parent := by
  by_cases hj : j < tbl.length
  · rw [pget_wakeup tbl s c j hj]
    split <;> rfl
  · rw [pget_of_ge tbl j (Nat.le_of_not_lt hj),
        pget_of_ge _ j (by rw [wakeup_length]; exact Nat.le_of_not_lt hj)]

theorem pget_wakeup_chan (tbl : List Proc) (s : Nat) (c : Option Nat) (j : Nat) :
    (pget (wakeup tbl s c) j).chan = (pget tbl j).chan := by
  by_cases hj : j < tbl.length
  · rw [pget_wakeup tbl s c j hj]
    split <;> rfl
  · rw [pget_of_ge tbl j (Nat.le_of_not_lt hj),
        pget_of_ge _ j (by rw [wakeup_length]; exact Nat.le_of_not_lt hj)]

theorem pget_wakeup_state (tbl : List Proc) (s : Nat) (c : Option Nat) (j : Nat) :
    (pget (wakeup tbl s c) j).state = (pget tbl j).state ∨
      ((pget tbl j).state = ProcState.SLEEPING ∧
       (pget (wakeup tbl s c) j).state = ProcState.RUNNABLE) := by
  by_cases hj : j < tbl.length
  · rw [pget_wakeup tbl s c j hj]
    split
    · rename_i h
      exact Or.inr ⟨h.2.1, rfl⟩
    · exact Or.inl rfl
  · left
    rw [pget_of_ge tbl j (Nat.le_of_not_lt hj),
        pget_of_ge _ j (by rw [wakeup_length]; exact Nat.le_of_not_lt hj)]

theorem parent_some_lt (tbl : List Proc) (i p0 : Nat)
    (h : (pget tbl i).parent = some p0) : i < tbl.length := by
  by_contra hge
  rw [pget_of_ge tbl i (Nat.le_of_not_lt hge)] at h
  exact Option.noConfusion h

theorem state_sleeping_lt (tbl : List Proc) (i : Nat)
    (h : (pget tbl i).state = ProcState.SLEEPING) : i < tbl.length := by
  by_contra hge
  rw [pget_of_ge tbl i (Nat.le_of_not_lt hge)] at h
  exact ProcState.noConfusion h

theorem reparentStep_length (p0 i0 i : Nat) (tbl : List Proc) :
    (reparentStep p0 i0 i tbl).length = tbl.length := by
  unfold reparentStep
  split
  · rw [wakeup_length, updateAt_length]
  · rfl

theorem pget_reparentStep_parent (p0 i0 i : Nat) (tbl : List Proc) (j : Nat) :
    (pget (reparentStep p0 i0 i tbl) j).parent =
      (if j = i ∧ (pget tbl i).parent = some p0 then some i0 else (pget tbl j).parent) := by
  unfold reparentStep
  by_cases hcond : (pget tbl i).parent = some p0
  · have hi : i < tbl.length := parent_some_lt tbl i p0 hcond
    rw [if_pos hcond, pget_wakeup_parent]
    by_cases hji : j = i
    · subst hji
      rw [pget_updateAt_self j _ tbl hi]
      simp [hcond]
    · rw [pget_updateAt_ne i j _ tbl hji]
      simp [hji]
  · rw [if_neg hcond]
    simp [hcond]

theorem pget_reparentStep_state (p0 i0 i : Nat) (tbl : List Proc) (j : Nat) :
    (pget (reparentStep p0 i0 i tbl) j).state = (pget tbl j).state ∨
      ((pget tbl j).state = ProcState.SLEEPING ∧
       (pget (reparentStep p0 i0 i tbl) j).state = ProcState.RUNNABLE) := by
  unfold reparentStep
  split
  · rename_i hcond
    have hi : i < tbl.length := parent_some_lt tbl i p0 hcond
    have hup : (pget (updateAt i (fun q => { q with parent := some i0 }) tbl) j).state =
        (pget tbl j).state := by
      by_cases hji : j = i
      · rw [hji, pget_updateAt_self i _ tbl hi]
      · rw [pget_updateAt_ne i j _ tbl hji]
    have hw := pget_wakeup_state (updateAt i (fun q => { q with parent := some i0 }) tbl)
      p0 (some i0) j
    rw [hup] at hw
    exact hw
  · exact Or.inl rfl

theorem pget_reparentStep_chan (p0 i0 i : Nat) (tbl : List Proc) (j : Nat) :
    (pget (reparentStep p0 i0 i tbl) j).chan = (pget tbl j).chan := by
  unfold reparentStep
  split
  · rename_i hcond
    have hi : i < tbl.length := parent_some_lt tbl i p0 hcond
    rw [pget_wakeup_chan]
    by_cases hji : j = i
    · rw [hji, pget_updateAt_self i _ tbl hi]
    · rw [pget_updateAt_ne i j _ tbl hji]
  · rfl

theorem reparentGo_length (p0 i0 : Nat) (is : List Nat) (tbl : List Proc) :
    (reparentGo p0 i0 is tbl).length = tbl.length := by
  induction is generalizing tbl with
  | nil => rfl
  | cons i is ih =>
    rw [reparentGo, ih, reparentStep_length]

theorem pget_reparentGo_parent (p0 i0 : Nat) (is : List Nat) (tbl : List Proc) (j : Nat)
    (hnd : is.Nodup) :
    (pget (reparentGo p0 i0 is tbl) j).parent =
      (if j ∈ is ∧ (pget tbl j).parent = some p0 then some i0 else (pget tbl j).parent) := by
  induction is generalizing tbl with
  | nil => simp [reparentGo]
  | cons i is ih =>
    obtain ⟨hin, hnd'⟩ := List.nodup_cons.mp hnd
    rw [reparentGo, ih _ hnd']
    by_cases hji : j = i
    · subst hji
      rw [if_neg (fun hc => hin hc.1), pget_reparentStep_parent]
      by_cases hcond : (pget tbl j).parent = some p0
      · rw [if_pos ⟨rfl, hcond⟩, if_pos ⟨List.mem_cons_self j is, hcond⟩]
      · rw [if_neg (fun hc => hcond hc.2), if_neg (fun hc => hcond hc.2)]
    · have hstep : (pget (reparentStep p0 i0 i tbl) j).parent = (pget tbl j).parent := by
        rw [pget_reparentStep_parent, if_neg (fun hc => hji hc.1)]
      rw [hstep]
      simp [List.mem_cons, hji]

theorem pget_reparentGo_state (p0 i0 : Nat) (is : List Nat) (tbl : List Proc) (j : Nat) :
    (pget (reparentGo p0 i0 is tbl) j).state = (pget tbl j).state ∨
      ((pget tbl j).state = ProcState.SLEEPING ∧
       (pget (reparentGo p0 i0 is tbl) j).state = ProcState.RUNNABLE) := by
  induction is generalizing tbl with
  | nil => exact Or.inl rfl
  | cons i is ih =>
    rw [reparentGo]
    rcases pget_reparentStep_state p0 i0 i tbl j with h1 | ⟨h1, h2⟩
    · rcases ih (reparentStep p0 i0 i tbl) with h3 | ⟨h3, h4⟩
      · exact Or.inl (by rw [h3, h1])
      · exact Or.inr ⟨by rw [← h1, h3], h4⟩
    · rcases ih (reparentStep p0 i0 i tbl) with h3 | ⟨h3, h4⟩
      · exact Or.inr ⟨h1, by rw [h3, h2]⟩
      · rw [h2] at h3
        exact absurd h3 (by decide)

theorem pget_reparentGo_chan (p0 i0 : Nat) (is : List Nat) (tbl : List Proc) (j : Nat) :
    (pget (reparentGo p0 i0 is tbl) j).chan = (pget tbl j).chan := by
  induction is generalizing tbl with
  | nil => rfl
  | cons i is ih =>
    rw [reparentGo, ih, pget_reparentStep_chan]

theorem reparentGo_wakes (p0 i0 : Nat) (is : List Nat) :
    ∀ tbl : List Proc,
      i0 ≠ p0 →
      (pget tbl i0).state = ProcState.SLEEPING →
      (pget tbl i0).chan = some i0 →
      (pget tbl i0).parent ≠ some p0 →
      (∃ i ∈ is, (pget tbl i).parent = some p0) →
      (pget (reparentGo p0 i0 is tbl) i0).state = ProcState.RUNNABLE := by
  induction is with
  | nil =>
    intro tbl _ _ _ _ hex
    obtain ⟨i, hi, _⟩ := hex
    exact absurd hi (List.not_mem_nil i)
  | cons i is ih =>
    intro tbl hne hsl hch hpp hex
    rw [reparentGo]
    by_cases hcond : (pget tbl i).parent = some p0
    · have hii0 : i ≠ i0 := fun he => hpp (he ▸ hcond)
      have hi0len : i0 < tbl.length := by
        by_contra hge
        rw [pget_of_ge tbl i0 (Nat.le_of_not_lt hge)] at hsl
        exact absurd hsl (by decide)
      have hrec : pget (updateAt i (fun q => { q with parent := some i0 }) tbl) i0 =
          pget tbl i0 :=
        pget_updateAt_ne i i0 _ tbl (fun h => hii0 h.symm)
      have hwk : (pget (reparentStep p0 i0 i tbl) i0).state = ProcState.RUNNABLE := by
        unfold reparentStep
        rw [if_pos hcond,
            pget_wakeup _ p0 (some i0) i0 (by rw [updateAt_length]; exact hi0len),
            hrec, if_pos ⟨hne, hsl, hch⟩]
      rcases pget_reparentGo_state p0 i0 is (reparentStep p0 i0 i tbl) i0 with h | ⟨h, _⟩
      · rw [h, hwk]
      · rw [hwk] at h
        exact absurd h (by decide)
    · have hid : reparentStep p0 i0 i tbl = tbl := by
        unfold reparentStep
        rw [if_neg hcond]
      rw [hid]
      obtain ⟨i', hi', hp'⟩ := hex
      rcases List.mem_cons.mp hi' with he | hin
      · exact absurd (he ▸ hp') hcond
      · exact ih tbl hne hsl hch hpp ⟨i', hin, hp'⟩

theorem reparent_eq (p0 i0 : Nat) (tbl : List Proc) :
    reparent p0 i0 tbl = reparentGo p0 i0 (List.range tbl.length) tbl := rfl

theorem reparent_length (p0 i0 : Nat) (tbl : List Proc) :
    (reparent p0 i0 tbl).length = tbl.length := by
  rw [reparent_eq, reparentGo_length]

theorem pget_reparent_parent (p0 i0 : Nat) (tbl : List Proc) (j : Nat) :
    (pget (reparent p0 i0 tbl) j).parent =
      (if j < tbl.length ∧ (pget tbl j).parent = some p0 then some i0
       else (pget tbl j).parent) := by
  rw [reparent_eq, pget_reparentGo_parent p0 i0 _ tbl j (List.nodup_range _)]
  simp [List.mem_range]

theorem pget_reparent_state (p0 i0 : Nat) (tbl : List Proc) (j : Nat) :
    (pget (reparent p0 i0 tbl) j).state = (pget tbl j).state ∨
      ((pget tbl j).state = ProcState.SLEEPING ∧
       (pget (reparent p0 i0 tbl) j).state = ProcState.RUNNABLE) := by
  rw [reparent_eq]
  exact pget_reparentGo_state p0 i0 _ tbl j

theorem pget_reparent_chan (p0 i0 : Nat) (tbl : List Proc) (j : Nat) :
    (pget (reparent p0 i0 tbl) j).chan = (pget tbl j).chan := by
  rw [reparent_eq, pget_reparentGo_chan]

theorem reparent_wakes (p0 i0 : Nat) (tbl : List Proc)
    (hne : i0 ≠ p0)
    (hsl : (pget tbl i0).state = ProcState.SLEEPING)
    (hch : (pget tbl i0).chan = some i0)
    (hpp : (pget tbl i0).parent ≠ some p0)
    (hex : ∃ j, j < tbl.length ∧ (pget tbl j).parent = some p0) :
    (pget (reparent p0 i0 tbl) i0).state = ProcState.RUNNABLE := by
  rw [reparent_eq]
  obtain ⟨j, hj, hpj⟩ := hex
  exact reparentGo_wakes p0 i0 _ tbl hne hsl hch hpp ⟨j, List.mem_range.mpr hj, hpj⟩

/-! ### The `exit` pipeline -/

theorem exitTable_length (tbl : List Proc) (pIdx i0 : Nat) (s : Int) :
    (exitTable tbl pIdx i0 s).length = tbl.length := by
  simp only [exitTable]
  rw [updateAt_length, wakeup_length, reparent_length, updateAt_length]

theorem exitTable_pget_self (tbl : List Proc) (pIdx i0 : Nat) (s : Int)
    (hp : pIdx < tbl.length) :
    (pget (exitTable tbl pIdx i0 s) pIdx).state = ProcState.ZOMBIE ∧
    (pget (exitTable tbl pIdx i0 s) pIdx).xstate = s := by
  simp only [exitTable]
  rw [pget_updateAt_self _ _ _
    (by rw [wakeup_length, reparent_length, updateAt_length]; exact hp)]
  exact ⟨rfl, rfl⟩

theorem exitTable_parent (tbl : List Proc) (pIdx i0 : Nat) (s : Int) (j : Nat)
    (hp : pIdx < tbl.length) (hj : j < tbl.length) (hne : j ≠ pIdx) :
    (pget (exitTable tbl pIdx i0 s) j).parent =
      (if (pget tbl j).parent = some pIdx then some i0 else (pget tbl j).parent) := by
  simp only [exitTable]
  rw [pget_updateAt_ne _ _ _ _ hne, pget_wakeup_parent, pget_reparent_parent]
  have h1 : (pget (updateAt pIdx
      (fun q => { q with ofile := List.replicate NOFILE 0, cwd := 0 }) tbl) j).parent =
      (pget tbl j).parent := by
    rw [pget_updateAt_ne _ _ _ _ hne]
  rw [h1]
  have hjlen : j < (updateAt pIdx
      (fun q => { q with ofile := List.replicate NOFILE 0, cwd := 0 }) tbl).length := by
    rw [updateAt_length]; exact hj
  by_cases hc : (pget tbl j).parent = some pIdx
  · rw [if_pos ⟨hjlen, hc⟩, if_pos hc]
  · rw [if_neg (fun hx => hc hx.2), if_neg hc]

theorem exitTable_wakes_init (tbl : List Proc) (pIdx i0 : Nat) (s : Int)
    (hPI : pIdx ≠ i0) (hp : pIdx < tbl.length)
    (hsl : (pget tbl i0).state = ProcState.SLEEPING)
    (hch : (pget tbl i0).chan = some i0)
    (hpp : (pget tbl i0).parent ≠ some pIdx)
    (hex : ∃ j, j < tbl.length ∧ (pget tbl j).parent = some pIdx) :
    (pget (exitTable tbl pIdx i0 s) i0).state = ProcState.RUNNABLE := by
  have hne0 : i0 ≠ pIdx := fun h => hPI h.symm
  simp only [exitTable]
  set t1 := updateAt pIdx
    (fun q => { q with ofile := List.replicate NOFILE 0, cwd := 0 }) tbl with ht1
  have h1rec : pget t1 i0 = pget tbl i0 := pget_updateAt_ne pIdx i0 _ tbl hne0
  have h1par : ∀ j, (pget t1 j).parent = (pget tbl j).parent := by
    intro j
    by_cases hj : j = pIdx
    · rw [hj, ht1, pget_updateAt_self _ _ _ hp]
    · rw [ht1, pget_updateAt_ne _ _ _ _ hj]
  have h1len : t1.length = tbl.length := by rw [ht1, updateAt_length]
  have h2 : (pget (reparent pIdx i0 t1) i0).state = ProcState.RUNNABLE := by
    refine reparent_wakes pIdx i0 t1 hne0 (by rw [h1rec]; exact hsl)
      (by rw [h1rec]; exact hch) (by rw [h1rec]; exact hpp) ?_
    obtain ⟨j, hj, hpj⟩ := hex
    exact ⟨j, by rw [h1len]; exact hj, by rw [h1par j]; exact hpj⟩
  rcases pget_wakeup_state (reparent pIdx i0 t1) pIdx
      (pget (reparent pIdx i0 t1) pIdx).parent i0 with h3 | ⟨h3, _⟩
  · rw [pget_updateAt_ne _ _ _ _ hne0, h3, h2]
  · rw [h2] at h3
    exact absurd h3 (by decide)

theorem exitTable_wakes_parent (tbl : List Proc) (pIdx i0 pa : Nat) (s : Int)
    (hp : pIdx < tbl.length)
    (hpar : (pget tbl pIdx).parent = some pa) (hne : pa ≠ pIdx)
    (hsl : (pget tbl pa).state = ProcState.SLEEPING)
    (hch : (pget tbl pa).chan = some pa) :
    (pget (exitTable tbl pIdx i0 s) pa).state = ProcState.RUNNABLE := by
  have hpa : pa < tbl.length := state_sleeping_lt tbl pa hsl
  simp only [exitTable]
  set t1 := updateAt pIdx
    (fun q => { q with ofile := List.replicate NOFILE 0, cwd := 0 }) tbl with ht1
  have h1rec : pget t1 pa = pget tbl pa := pget_updateAt_ne pIdx pa _ tbl hne
  have h1pp : (pget t1 pIdx).parent = some pa := by
    rw [ht1, pget_updateAt_self _ _ _ hp]
    exact hpar
  have h1len : t1.length = tbl.length := by rw [ht1, updateAt_length]
  set t2 := reparent pIdx i0 t1 with ht2
  have h2len : t2.length = tbl.length := by rw [ht2, reparent_length, h1len]
  have h2pp : (pget t2 pIdx).parent = some pa := by
    rw [ht2, pget_reparent_parent, if_neg, h1pp]
    intro hc
    rw [h1pp] at hc
    exact hne (Option.some.inj hc.2)
  have h2chan : (pget t2 pa).chan = some pa := by
    rw [ht2, pget_reparent_chan, h1rec]
    exact hch
  have h2state := pget_reparent_state pIdx i0 t1 pa
  rw [h1rec] at h2state
  rw [← ht2] at h2state
  rw [pget_updateAt_ne _ _ _ _ hne, h2pp]
  rcases h2state with h3 | ⟨_, h3⟩
  · rw [pget_wakeup t2 pIdx (some pa) pa (by rw [h2len]; exact hpa),
        if_pos ⟨hne, by rw [h3]; exact hsl, h2chan⟩]
  · rcases pget_wakeup_state t2 pIdx (some pa) pa with h4 | ⟨h4, _⟩
    · rw [h4, h3]
    · rw [h3] at h4
      exact absurd h4 (by decide)

/-- C9: `exit` by the bootstrap process is a kernel panic (`"init exiting"`,
second conjunct, for any table and status); for any other process the call
hands control to the scheduler for good — the result type has no
normal-return outcome — with a final table (first conjunct) in which: the
exiting record has the given exit status and state `ZOMBIE` (third and fourth
conjuncts); every other record's parent pointer is redirected to the
bootstrap process exactly when it pointed at the exiting record (fifth
conjunct); the bootstrap process, if it was sleeping in `wait` on its own
record, is woken whenever at least one child was handed over (sixth
conjunct); and the exiting process's own parent, if sleeping in `wait` on its
own record, is woken (seventh conjunct). -/
theorem C9_exit_behavior (tbl : List Proc) (pIdx initIdx pa : Nat) (status : Int)
    (hPI : pIdx ≠ initIdx) (hp : pIdx < tbl.length) :
    exit tbl pIdx initIdx status = ExitResult.switched (exitTable tbl pIdx initIdx status) ∧
    (∀ (t : List Proc) (i : Nat) (s : Int),
      exit t i i s = ExitResult.panicked "init exiting") ∧
    (pget (exitTable tbl pIdx initIdx status) pIdx).state = ProcState.ZOMBIE ∧
    (pget (exitTable tbl pIdx initIdx status) pIdx).xstate = status ∧
    (∀ j, j < tbl.length → j ≠ pIdx →
      (pget (exitTable tbl pIdx initIdx status) j).parent =
        (if (pget tbl j).parent = some pIdx then some initIdx
         else (pget tbl j).parent)) ∧
    ((pget tbl initIdx).state = ProcState.SLEEPING →
     (pget tbl initIdx).chan = some initIdx →
     (pget tbl initIdx).parent ≠ some pIdx →
     (∃ j, j < tbl.length ∧ (pget tbl j).parent = some pIdx) →
      (pget (exitTable tbl pIdx initIdx status) initIdx).state = ProcState.RUNNABLE) ∧
    ((pget tbl pIdx).parent = some pa → pa ≠ pIdx →
     (pget tbl pa).state = ProcState.SLEEPING →
     (pget tbl pa).chan = some pa →
      (pget (exitTable tbl pIdx initIdx status) pa).state = ProcState.RUNNABLE) := by
  refine ⟨by simp [exit, hPI], fun t i s => by simp [exit], ?_, ?_, ?_, ?_, ?_⟩
  · exact (exitTable_pget_self tbl pIdx initIdx status hp).1
  · exact (exitTable_pget_self tbl pIdx initIdx status hp).2
  · intro j hj hne
    exact exitTable_parent tbl pIdx initIdx status j hp hj hne
  · intro hsl hch hpp hex
    exact exitTable_wakes_init tbl pIdx initIdx status hPI hp hsl hch hpp hex
  · intro hpar hne hsl hch
    exact exitTable_wakes_parent tbl pIdx initIdx pa status hp hpar hne hsl hch

/-- The bootstrap record: sleeping in `wait` on its own record (index 0). -/
def pInit : Proc :=
  { (default : Proc) with
    state := ProcState.SLEEPING, pid := 1, chan := some 0, name := "initcode" }

/-- The exiting record at index 1: running, child of the bootstrap process. -/
def pExit : Proc :=
  { (default : Proc) with
    state := ProcState.RUNNING, pid := 4, parent := some 0 }

/-- An orphan-to-be at index 2: a sleeping child of the exiting process. -/
def pOrphan : Proc :=
  { (default : Proc) with
    state := ProcState.SLEEPING, pid := 6, parent := some 1, chan := some 2 }

/-- Witness for C9 on the three-process table `[pInit, pExit, pOrphan]`:
`exit` by index 1 switches to the scheduler with the exiting record `ZOMBIE`
carrying status 5, the orphan reparented to the bootstrap process, and the
bootstrap process — which is both the parent and the orphans' new home —
woken; `exit` by the bootstrap process itself panics. -/
theorem C9_exit_behavior_witness :
    exit [pInit, pExit, pOrphan] 1 0 5 =
      ExitResult.switched (exitTable [pInit, pExit, pOrphan] 1 0 5) ∧
    exit [pInit, pExit, pOrphan] 0 0 5 = ExitResult.panicked "init exiting" ∧
    (pget (exitTable [pInit, pExit, pOrphan] 1 0 5) 1).state = ProcState.ZOMBIE ∧
    (pget (exitTable [pInit, pExit, pOrphan] 1 0 5) 1).xstate = 5 ∧
    (pget (exitTable [pInit, pExit, pOrphan] 1 0 5) 2).parent = some 0 ∧
    (pget (exitTable [pInit, pExit, pOrphan] 1 0 5) 0).state = ProcState.RUNNABLE := by
  have h := C9_exit_behavior [pInit, pExit, pOrphan] 1 0 0 5 (by decide) (by decide)
  refine ⟨h.1, h.2.1 _ 0 5, h.2.2.1, h.2.2.2.1, ?_, ?_⟩
  · have h5 := h.2.2.2.2.1 2 (by decide) (by decide)
    rw [h5]
    decide
  · exact h.2.2.2.2.2.1 (by decide) (by decide) (by decide) ⟨2, by decide, by decide⟩
